import Mathlib

/-!
Verification of the Lead-scoring repository's scoring engine.

Shallow embedding of the two scoring services and the orchestrator:
  - ruleScoringService.js : scoreRoleRelevance, scoreIndustryMatch,
    scoreDataCompleteness, calculateRuleScore
  - aiScoringService.js   : parseAIResponse, mapIntentToScore,
    getFallbackScore, calculateAIScore
  - scoringService.js     : scoreLead, getRuleBreakdown, scoreLeads

JavaScript strings are modelled as Lean String; possibly-undefined object
fields as Option String; JS exceptions as Except. JS toLowerCase is
modelled by Char.toLower mapped over the characters (ASCII-faithful, which
covers every keyword and literal in the source). JS s.includes(t) is the
substring test strIncludes below.
-/

/-- JS String.prototype.includes: needle occurs as a contiguous substring of
hay (the empty needle always matches, as in JS). -/
def strIncludes (hay needle : List Char) : Bool :=
  if needle.isPrefixOf hay then true
  else
    match hay with
    | [] => false
    | _ :: t => strIncludes t needle

/-- JS s.toLowerCase() on the character list of s (ASCII case mapping). -/
def lowerL (s : String) : List Char :=
  s.toList.map Char.toLower

/-- JS regex \s and String.prototype.trim whitespace class (ASCII part). -/
def isWsChar (c : Char) : Bool :=
  c = ' ' || c = '\t' || c = '\n' || c = '\r' || c = '\x0b' || c = '\x0c'

/-- JS String.prototype.trim: strip whitespace from both ends. -/
def trimL (l : List Char) : List Char :=
  ((l.dropWhile isWsChar).reverse.dropWhile isWsChar).reverse

/-- Lead record as consumed by the scoring services: every field may be
absent (undefined) in the JS object, hence Option. -/
structure Lead where
  name : Option String
  role : Option String
  company : Option String
  industry : Option String
  location : Option String
  linkedin_bio : Option String
deriving DecidableEq, Repr

/-- Offer record as consumed by the scoring services; ideal_use_cases may
be absent on a malformed offer object. -/
structure Offer where
  name : Option String
  value_props : Option (List String)
  ideal_use_cases : Option (List String)
deriving DecidableEq, Repr

/-- Rule score breakdown returned by calculateRuleScore. -/
structure RuleBreakdown where
  roleScore : Nat
  industryScore : Nat
  completenessScore : Nat
  totalScore : Nat
deriving DecidableEq, Repr

/-- Decision-maker keyword list of scoreRoleRelevance (20 points). -/
def decisionMakerKeywords : List String :=
  ["ceo", "cto", "cfo", "chief", "president", "director", "head",
   "founder", "owner", "vp", "vice president", "general manager",
   "managing director", "senior vice president"]

/-- Influencer keyword list of scoreRoleRelevance (10 points). -/
def influencerKeywords : List String :=
  ["manager", "lead", "senior", "principal", "specialist", "architect",
   "coordinator", "supervisor", "administrator"]

/-- ruleScoringService.scoreRoleRelevance. The JS guard (!role) returns 0
for an undefined or empty role; otherwise the lowercased role is searched
for a decision-maker keyword (20), then an influencer keyword (10). -/
def scoreRoleRelevance (role : Option String) : Nat :=
  match role with
  | none => 0
  | some r =>
    if r == "" then 0
    else
      let roleLower := lowerL r
      if decisionMakerKeywords.any (fun kw => strIncludes roleLower kw.toList) then 20
      else if influencerKeywords.any (fun kw => strIncludes roleLower kw.toList) then 10
      else 0

/-- Adjacent-industry keyword list of scoreIndustryMatch (10 points). -/
def adjacentIndustries : List String :=
  ["saas", "tech", "technology", "software"]

/-- The for-loop body of scoreIndustryMatch: in source order over the use
cases, return 20 on mutual substring containment, else (in the same
iteration) return 10 on an adjacency keyword hit, else continue. -/
def industryLoop (industryLower : List Char) : List String → Nat
  | [] => 0
  | useCase :: rest =>
    let useCaseLower := lowerL useCase
    if strIncludes useCaseLower industryLower || strIncludes industryLower useCaseLower then 20
    else if adjacentIndustries.any (fun adj =>
        strIncludes industryLower adj.toList || strIncludes useCaseLower adj.toList) then 10
    else industryLoop industryLower rest

/-- ruleScoringService.scoreIndustryMatch. The JS guard
(!industry || !idealUseCases || idealUseCases.length === 0) returns 0;
otherwise the loop industryLoop runs over the use cases. -/
def scoreIndustryMatch (industry : Option String) (idealUseCases : Option (List String)) : Nat :=
  match industry with
  | none => 0
  | some ind =>
    if ind == "" then 0
    else
      match idealUseCases with
      | none => 0
      | some ucs =>
        if ucs.length == 0 then 0
        else industryLoop (lowerL ind) ucs

/-- Truthiness-and-trim test of one required field in
scoreDataCompleteness: value && value.trim().length > 0. -/
def fieldOk (v : Option String) : Bool :=
  match v with
  | none => false
  | some s => !(s == "") && !(trimL s.toList).isEmpty

/-- ruleScoringService.scoreDataCompleteness: 10 when the five required
fields name, role, company, industry, location are all truthy and
non-blank after trimming, else 0. -/
def scoreDataCompleteness (lead : Lead) : Nat :=
  if [lead.name, lead.role, lead.company, lead.industry, lead.location].all fieldOk
  then 10 else 0

/-- ruleScoringService.calculateRuleScore: the three sub-scores and their
sum. The JS try/catch around this body is dead in the embedding: every
sub-score function is total, so the catch branch returning all zeros is
unreachable and the function never raises. -/
def calculateRuleScore (lead : Lead) (offer : Offer) : RuleBreakdown :=
  let roleScore := scoreRoleRelevance lead.role
  let industryScore := scoreIndustryMatch lead.industry offer.ideal_use_cases
  let completenessScore := scoreDataCompleteness lead
  let totalScore := roleScore + industryScore + completenessScore
  { roleScore := roleScore
    industryScore := industryScore
    completenessScore := completenessScore
    totalScore := totalScore }

/-- Intent classification result returned by the AI scoring service. -/
structure IntentResult where
  intent : String
  score : Nat
  reasoning : String
deriving DecidableEq, Repr

/-- Outcome of parseAIResponse before the intent is mapped to a score. -/
structure ParsedAI where
  intent : String
  reasoning : String
deriving DecidableEq, Repr

/-- Case-insensitive literal match at the start of s: the first pat.length
characters of s, lowercased, equal pat (pat is given lowercase). -/
def ciStarts (pat s : List Char) : Bool :=
  (s.take pat.length).map Char.toLower == pat

/-- One attempt of the JS regex INTENT:\s*(High|Medium|Low) (flag i) at a
fixed start position: the literal, then greedily skipped whitespace (no
alternative starts with whitespace, so greedy skipping is exact), then the
first alternative that matches; the captured token is returned with its
original casing. -/
def tryIntentAt (s : List Char) : Option (List Char) :=
  if ciStarts "intent:".toList s then
    let rest := (s.drop 7).dropWhile isWsChar
    if ciStarts "high".toList rest then some (rest.take 4)
    else if ciStarts "medium".toList rest then some (rest.take 6)
    else if ciStarts "low".toList rest then some (rest.take 3)
    else none
  else none

/-- Leftmost match of the intent regex over the whole reply, scanning
start positions left to right as the JS engine does. -/
def findIntentTok : List Char → Option (List Char)
  | [] => none
  | c :: rest =>
    match tryIntentAt (c :: rest) with
    | some t => some t
    | none => findIntentTok rest

/-- The JS normalization of the captured intent token:
charAt(0).toUpperCase() + slice(1).toLowerCase(). -/
def normalizeTok : List Char → List Char
  | [] => []
  | c :: cs => c.toUpper :: cs.map Char.toLower

/-- Backtracking of \s* in the JS regex REASONING:\s*(.+?)(?:\n|$): w
counts whitespace characters consumed; the engine tries the largest w
first and succeeds at the first w whose next character exists and is not a
newline, capturing from there to the next newline or the end (the lazy
.+? with terminator \n-or-end takes exactly that run). -/
def capBack (rest : List Char) : Nat → Option (List Char)
  | 0 =>
    if (rest.getD 0 '\n') != '\n'
    then some (rest.takeWhile (fun c => c != '\n'))
    else none
  | w + 1 =>
    if (rest.getD (w + 1) '\n') != '\n'
    then some ((rest.drop (w + 1)).takeWhile (fun c => c != '\n'))
    else capBack rest w

/-- One attempt of the reasoning regex at a fixed start position. -/
def tryReasoningAt (s : List Char) : Option (List Char) :=
  if ciStarts "reasoning:".toList s then
    let rest := s.drop 10
    capBack rest (rest.takeWhile isWsChar).length
  else none

/-- Leftmost match of the reasoning regex over the whole reply. -/
def findReasoningCap : List Char → Option (List Char)
  | [] => none
  | c :: rest =>
    match tryReasoningAt (c :: rest) with
    | some t => some t
    | none => findReasoningCap rest

/-- aiScoringService.parseAIResponse: extract the intent token (default
Medium when the pattern is absent) and the trimmed reasoning capture
(default the placeholder when that pattern is absent). The JS try/catch is
dead in the embedding: regex matching cannot throw. -/
def parseAIResponse (response : String) : ParsedAI :=
  { intent :=
      match findIntentTok response.toList with
      | some t => String.mk (normalizeTok t)
      | none => "Medium"
    reasoning :=
      match findReasoningCap response.toList with
      | some cap => String.mk (trimL cap)
      | none => "AI analysis completed" }

/-- aiScoringService.mapIntentToScore: fixed table with default 30 for any
key outside it (the JS mapping[intent] || 30 with a case-sensitive
property lookup). -/
def mapIntentToScore (intent : String) : Nat :=
  if intent == "High" then 50
  else if intent == "Medium" then 30
  else if intent == "Low" then 10
  else 30

/-- Error raised inside the scoring services: reading .some of an absent
ideal_use_cases array throws a TypeError in JS. -/
inductive ScoreErr where
  | typeError
deriving DecidableEq, Repr

/-- The hasStrongRole signal of getFallbackScore: lead.role, lowercased,
contains one of the five strong keywords (optional chaining makes an
absent role yield false). -/
def fallbackStrongRole (lead : Lead) : Bool :=
  ["ceo", "cto", "founder", "director", "head"].any (fun kw =>
    match lead.role with
    | none => false
    | some r => strIncludes (lowerL r) kw.toList)

/-- The hasRelevantIndustry signal of getFallbackScore: some use case is,
case-insensitively, a substring of lead.industry — the source computes
lead.industry?.toLowerCase().includes(useCase.toLowerCase()), so the
industry is the haystack and the use case the needle. -/
def fallbackRelevantIndustry (lead : Lead) (ucs : List String) : Bool :=
  ucs.any (fun useCase =>
    match lead.industry with
    | none => false
    | some ind => strIncludes (lowerL ind) (lowerL useCase))

/-- aiScoringService.getFallbackScore: heuristic used when no provider is
configured or the provider call failed. Reading offer.ideal_use_cases.some
throws when the array is absent; otherwise the two boolean signals select
High/50, Medium/30 or Low/10 with a fixed reasoning string. -/
def getFallbackScore (lead : Lead) (offer : Offer) : Except ScoreErr IntentResult :=
  match offer.ideal_use_cases with
  | none => .error .typeError
  | some ucs =>
    if fallbackStrongRole lead && fallbackRelevantIndustry lead ucs then
      .ok { intent := "High", score := 50
            reasoning := "Strong indicators: relevant role and industry match" }
    else if fallbackStrongRole lead || fallbackRelevantIndustry lead ucs then
      .ok { intent := "Medium", score := 30
            reasoning := "Moderate indicators present" }
    else
      .ok { intent := "Low", score := 10
            reasoning := "Limited indicators of strong fit" }

/-- Oracle configuration seen by calculateAIScore. The two providers
(OpenAI, Gemini) run the same protocol — build a prompt, obtain a reply
string, parse it — so a configured provider is modelled as one abstract
query function returning either a reply text or a transport error. -/
inductive OracleCfg where
  | notConfigured
  | configured (query : Lead → Offer → Except String String)

/-- aiScoringService.calculateAIScore: with no provider configured, or when
the provider call raises, fall back to getFallbackScore; on a reply, parse
it and map the intent to a score. An error escaping the fallback itself
(absent ideal_use_cases) propagates to the caller. -/
def calculateAIScore (cfg : OracleCfg) (lead : Lead) (offer : Offer) :
    Except ScoreErr IntentResult :=
  match cfg with
  | .notConfigured => getFallbackScore lead offer
  | .configured query =>
    match query lead offer with
    | .error _ => getFallbackScore lead offer
    | .ok reply =>
      let parsed := parseAIResponse reply
      .ok { intent := parsed.intent
            score := mapIntentToScore parsed.intent
            reasoning := parsed.reasoning }

/-- middleware AppError: operational error with a message and a status. -/
structure AppError where
  message : String
  status : Nat
deriving DecidableEq, Repr

/-- Scored lead returned by scoringService.scoreLead: the lead spread into
the result plus intent, final score, composed reasoning, the two layer
scores and the full rule breakdown. -/
structure ScoredLead where
  lead : Lead
  intent : String
  score : Nat
  reasoning : String
  ruleScore : Nat
  aiScore : Nat
  scoreBreakdown : RuleBreakdown
deriving DecidableEq, Repr

/-- scoringService.getRuleBreakdown: push a phrase for each nonzero
sub-score in source order, join with a comma and a space, or produce the
no-match phrase when every sub-score is zero. -/
def getRuleBreakdown (ruleResult : RuleBreakdown) : String :=
  let parts : List String :=
    (if ruleResult.roleScore > 0
     then ["role relevance (" ++ toString ruleResult.roleScore ++ " pts)"] else [])
    ++ (if ruleResult.industryScore > 0
        then ["industry match (" ++ toString ruleResult.industryScore ++ " pts)"] else [])
    ++ (if ruleResult.completenessScore > 0
        then ["data completeness (" ++ toString ruleResult.completenessScore ++ " pts)"] else [])
  if parts.length > 0 then String.intercalate ", " parts else "no rule matches"

/-- scoringService.scoreLead: combine the rule breakdown with the AI
result; any error from the AI layer is caught and rethrown as the
Failed-to-score-lead AppError with status 500. -/
def scoreLead (cfg : OracleCfg) (lead : Lead) (offer : Offer) :
    Except AppError ScoredLead :=
  let ruleResult := calculateRuleScore lead offer
  match calculateAIScore cfg lead offer with
  | .error _ => .error { message := "Failed to score lead", status := 500 }
  | .ok aiResult =>
    .ok { lead := lead
          intent := aiResult.intent
          score := ruleResult.totalScore + aiResult.score
          reasoning := aiResult.reasoning ++ " Rule-based analysis: "
            ++ getRuleBreakdown ruleResult
          ruleScore := ruleResult.totalScore
          aiScore := aiResult.score
          scoreBreakdown := ruleResult }

/-- Promise.all over leads.map(scoreLead): the settled results keep the
index order of the input array, and one rejection rejects the whole batch
— no partial list is produced. -/
def scoreAll (cfg : OracleCfg) (offer : Offer) : List Lead → Except AppError (List ScoredLead)
  | [] => .ok []
  | l :: rest =>
    match scoreLead cfg l offer, scoreAll cfg offer rest with
    | .ok s, .ok ss => .ok (s :: ss)
    | .error e, _ => .error e
    | .ok _, .error e => .error e

/-- scoringService.scoreLeads: await Promise.all of the per-lead scores;
any rejection is caught and rethrown as the Failed-to-score-leads AppError
with status 500. -/
def scoreLeads (cfg : OracleCfg) (leads : List Lead) (offer : Offer) :
    Except AppError (List ScoredLead) :=
  match scoreAll cfg offer leads with
  | .ok results => .ok results
  | .error _ => .error { message := "Failed to score leads", status := 500 }

/-- Spec-worded restatement of the industry pass (claim C2): one in-order
scan of the use cases; the first use case at which either string contains
the other yields 20, else an adjacency hit in the same iteration yields
10; a completed pass yields 0. Stated with findSome? to compare against
the source loop. -/
def industryPassClaim (industryLower : List Char) (ucs : List String) : Nat :=
  match ucs.findSome? (fun useCase =>
      let useCaseLower := lowerL useCase
      if strIncludes useCaseLower industryLower || strIncludes industryLower useCaseLower
      then some 20
      else if adjacentIndustries.any (fun adj =>
          strIncludes industryLower adj.toList || strIncludes useCaseLower adj.toList)
      then some 10
      else none) with
  | some n => n
  | none => 0

/-- Spec-worded restatement of the reasoning clause (claim C9): the
sub-scores in the fixed order role, industry, completeness, keep exactly
the nonzero ones, render each as label (N pts), join with commas, and say
no rule matches when none is kept. -/
def breakdownClauseClaim (r : RuleBreakdown) : String :=
  let entries : List (String × Nat) :=
    [("role relevance", r.roleScore),
     ("industry match", r.industryScore),
     ("data completeness", r.completenessScore)]
  let parts := (entries.filter (fun e => e.2 > 0)).map
    (fun e => e.1 ++ " (" ++ toString e.2 ++ " pts)")
  if parts = [] then "no rule matches" else String.intercalate ", " parts

/-- Spec-worded field condition of claim C7: the field is present and
non-blank after trimming. -/
def presentNonBlank (v : Option String) : Prop :=
  ∃ s, v = some s ∧ trimL s.toList ≠ []

theorem strIncludes_iff_contains (hay needle : List Char) :
    strIncludes hay needle = true ↔ needle <:+: hay := by
  induction hay with
  | nil =>
    rw [strIncludes]
    constructor
    · intro h
      split at h
      · next hpre =>
        have : needle = [] := List.prefix_nil.mp (List.isPrefixOf_iff_prefix.mp hpre)
        simp [this]
      · exact absurd h (by simp)
    · intro h
      have : needle = [] := List.infix_nil.mp h
      subst this
      decide
  | cons c t ih =>
    rw [strIncludes]
    by_cases hp : needle.isPrefixOf (c :: t) = true
    · simp only [hp, if_true, true_iff]
      exact (List.isPrefixOf_iff_prefix.mp hp).isInfix
    · have hp' : needle.isPrefixOf (c :: t) = false := Bool.eq_false_iff.mpr hp
      have hnp : ¬ needle <+: c :: t := fun h =>
        hp (List.isPrefixOf_iff_prefix.mpr h)
      simp only [hp', if_false, Bool.false_eq_true, ih, List.infix_cons_iff]
      tauto

theorem strIncludes_append (hay more needle : List Char)
    (h : strIncludes hay needle = true) :
    strIncludes (hay ++ more) needle = true := by
  rw [strIncludes_iff_contains] at h ⊢
  exact h.trans (List.prefix_append hay more).isInfix

theorem lowerL_append (s t : String) :
    lowerL (s ++ t) = lowerL s ++ lowerL t := by
  simp [lowerL, String.toList, String.data_append]

/-- C6: the role sub-score is 20 when the lowercased role contains a
decision-maker keyword, else 10 when it contains an influencer keyword,
else 0 (so the decision-maker check strictly precedes the influencer
check and a role matching both scores 20); an absent or empty role scores
0; and appending further text, in particular influencer keywords, to a
role that already contains a decision-maker keyword still scores 20. -/
theorem C6_roleRelevance_characterization :
    (∀ s : String, scoreRoleRelevance (some s) =
      (if decisionMakerKeywords.any (fun kw => strIncludes (lowerL s) kw.toList) then 20
       else if influencerKeywords.any (fun kw => strIncludes (lowerL s) kw.toList) then 10
       else 0))
    ∧ scoreRoleRelevance none = 0
    ∧ scoreRoleRelevance (some "") = 0
    ∧ (∀ s t : String,
        decisionMakerKeywords.any (fun kw => strIncludes (lowerL s) kw.toList) = true →
        scoreRoleRelevance (some (s ++ t)) = 20) := by
  have h1 : ∀ s : String, scoreRoleRelevance (some s) =
      (if decisionMakerKeywords.any (fun kw => strIncludes (lowerL s) kw.toList) then 20
       else if influencerKeywords.any (fun kw => strIncludes (lowerL s) kw.toList) then 10
       else 0) := by
    intro s
    by_cases hs : s = ""
    · subst hs
      decide
    · have hs' : (s == "") = false := by simpa using hs
      simp [scoreRoleRelevance, hs']
  refine ⟨h1, rfl, by decide, ?_⟩
  intro s t h
  rw [h1]
  have hmono : decisionMakerKeywords.any
      (fun kw => strIncludes (lowerL (s ++ t)) kw.toList) = true := by
    rw [List.any_eq_true] at h ⊢
    obtain ⟨kw, hkw, hinc⟩ := h
    refine ⟨kw, hkw, ?_⟩
    rw [lowerL_append]
    exact strIncludes_append _ _ _ hinc
  rw [hmono]
  simp

/-- Witness for C6 at a concrete role built from a decision-maker keyword
with an influencer keyword appended. -/
theorem C6_witness :
    scoreRoleRelevance (some ("Director" ++ " and manager")) = 20 :=
  C6_roleRelevance_characterization.2.2.2 "Director" " and manager" (by decide)

/-- C7: the completeness sub-score is 10 exactly when the five required
fields name, role, company, industry, location are all present and
non-blank after trimming, and it is 0 in every other case. -/
theorem C7_completeness_iff :
    ∀ lead : Lead,
      (scoreDataCompleteness lead = 10 ↔
        (presentNonBlank lead.name ∧ presentNonBlank lead.role ∧
         presentNonBlank lead.company ∧ presentNonBlank lead.industry ∧
         presentNonBlank lead.location))
      ∧ (scoreDataCompleteness lead = 10 ∨ scoreDataCompleteness lead = 0) := by
  intro lead
  have hfo : ∀ v : Option String, fieldOk v = true ↔ presentNonBlank v := by
    intro v
    cases v with
    | none => simp [fieldOk, presentNonBlank]
    | some s =>
      simp only [fieldOk, presentNonBlank, Bool.and_eq_true, Bool.not_eq_true',
        beq_eq_false_iff_ne, ne_eq, List.isEmpty_eq_false, Option.some.injEq]
      constructor
      · rintro ⟨-, h2⟩
        exact ⟨s, rfl, h2⟩
      · rintro ⟨s', hs', h2⟩
        subst hs'
        refine ⟨fun hs => h2 ?_, h2⟩
        subst hs
        rfl
  constructor
  · by_cases hall :
        [lead.name, lead.role, lead.company, lead.industry, lead.location].all fieldOk = true
    · simp only [scoreDataCompleteness, hall, if_true, true_iff]
      simp only [List.all_cons, List.all_nil, Bool.and_eq_true, and_true] at hall
      exact ⟨(hfo _).mp hall.1, (hfo _).mp hall.2.1, (hfo _).mp hall.2.2.1,
        (hfo _).mp hall.2.2.2.1, (hfo _).mp hall.2.2.2.2⟩
    · have hall' :
          [lead.name, lead.role, lead.company, lead.industry, lead.location].all fieldOk
            = false := by
        simpa using hall
      simp only [scoreDataCompleteness, hall']
      simp only [List.all_cons, List.all_nil, Bool.and_eq_true, and_true] at hall
      constructor
      · intro h
        simp at h
      · rintro ⟨p1, p2, p3, p4, p5⟩
        exact absurd ⟨(hfo _).mpr p1, (hfo _).mpr p2, (hfo _).mpr p3,
          (hfo _).mpr p4, (hfo _).mpr p5⟩ hall
  · unfold scoreDataCompleteness
    split
    · exact Or.inl rfl
    · exact Or.inr rfl

/-- C8: calculateRuleScore is a total function (the embedding has no error
channel, matching the unreachable catch branch in the source) whose
totalScore is exactly the sum of the three sub-scores, and a missing lead
or offer field degrades the affected sub-score to 0. -/
theorem C8_ruleScore_total_and_degrade :
    ∀ (lead : Lead) (offer : Offer),
      (calculateRuleScore lead offer).totalScore =
          (calculateRuleScore lead offer).roleScore +
          (calculateRuleScore lead offer).industryScore +
          (calculateRuleScore lead offer).completenessScore
      ∧ (lead.role = none → (calculateRuleScore lead offer).roleScore = 0)
      ∧ (lead.industry = none → (calculateRuleScore lead offer).industryScore = 0)
      ∧ (offer.ideal_use_cases = none → (calculateRuleScore lead offer).industryScore = 0)
      ∧ ((lead.name = none ∨ lead.role = none ∨ lead.company = none ∨
          lead.industry = none ∨ lead.location = none) →
          (calculateRuleScore lead offer).completenessScore = 0) := by
  intro lead offer
  refine ⟨rfl, ?_, ?_, ?_, ?_⟩
  · intro h
    simp [calculateRuleScore, scoreRoleRelevance, h]
  · intro h
    simp [calculateRuleScore, scoreIndustryMatch, h]
  · intro h
    cases hi : lead.industry with
    | none => simp [calculateRuleScore, scoreIndustryMatch, hi]
    | some ind =>
      simp only [calculateRuleScore, scoreIndustryMatch, hi, h]
      split
      · rfl
      · rfl
  · intro h
    rcases h with h | h | h | h | h <;>
      simp [calculateRuleScore, scoreDataCompleteness, List.all_cons, fieldOk, h]

/-- Witness for C8 at the fully absent lead and offer. -/
theorem C8_witness :
    (calculateRuleScore ⟨none, none, none, none, none, none⟩ ⟨none, none, none⟩).roleScore = 0
    ∧ (calculateRuleScore ⟨none, none, none, none, none, none⟩
        ⟨none, none, none⟩).industryScore = 0
    ∧ (calculateRuleScore ⟨none, none, none, none, none, none⟩
        ⟨none, none, none⟩).completenessScore = 0 :=
  ⟨(C8_ruleScore_total_and_degrade _ _).2.1 rfl,
   (C8_ruleScore_total_and_degrade _ _).2.2.2.1 rfl,
   (C8_ruleScore_total_and_degrade _ _).2.2.2.2 (Or.inl rfl)⟩

/-- C2: on a non-empty industry and non-empty use-case list the industry
sub-score is the stated one-pass scan (first use case with mutual
containment gives 20, an adjacency hit in the same iteration gives 10, a
completed pass gives 0), and the adjacency fallback can fire at an early
use case before a later use case that would exact-match: the concrete
input Fintech with use cases Retail then Consumer Fintech scores 10, even
though Consumer Fintech alone would score 20. -/
theorem C2_industryMatch_pass :
    (∀ (industry : String) (ucs : List String), industry ≠ "" → ucs ≠ [] →
      scoreIndustryMatch (some industry) (some ucs) =
        industryPassClaim (lowerL industry) ucs)
    ∧ scoreIndustryMatch (some "Fintech") (some ["Retail", "Consumer Fintech"]) = 10
    ∧ scoreIndustryMatch (some "Fintech") (some ["Consumer Fintech"]) = 20 := by
  have hloop : ∀ (indL : List Char) (ucs : List String),
      industryLoop indL ucs = industryPassClaim indL ucs := by
    intro indL ucs
    induction ucs with
    | nil => rfl
    | cons uc rest ih =>
      rw [industryLoop, industryPassClaim, List.findSome?_cons]
      by_cases hA : (strIncludes (lowerL uc) indL || strIncludes indL (lowerL uc)) = true
      · simp [hA]
      · have hA' : (strIncludes (lowerL uc) indL || strIncludes indL (lowerL uc)) = false :=
          Bool.eq_false_iff.mpr hA
        by_cases hB : adjacentIndustries.any (fun adj =>
            strIncludes indL adj.toList || strIncludes (lowerL uc) adj.toList) = true
        · simp only [hA', Bool.false_eq_true, if_false, hB, eq_self_iff_true, if_true]
        · have hB' : adjacentIndustries.any (fun adj =>
              strIncludes indL adj.toList || strIncludes (lowerL uc) adj.toList) = false :=
            Bool.eq_false_iff.mpr hB
          simp only [hA', hB', Bool.false_eq_true, if_false]
          rw [ih, industryPassClaim]
  refine ⟨?_, by decide, by decide⟩
  intro industry ucs h1 h2
  have hne : (industry == "") = false := by
    simpa using h1
  cases ucs with
  | nil => exact absurd rfl h2
  | cons u rest =>
    simp [scoreIndustryMatch, hne, hloop]

/-- Witness for C2 at a concrete non-empty industry and use-case list. -/
theorem C2_witness :
    scoreIndustryMatch (some "Fintech") (some ["Retail"]) =
      industryPassClaim (lowerL "Fintech") ["Retail"] :=
  C2_industryMatch_pass.1 "Fintech" ["Retail"] (by decide) (by decide)

theorem scoreRoleRelevance_cases (role : Option String) :
    scoreRoleRelevance role = 0 ∨ scoreRoleRelevance role = 10 ∨
      scoreRoleRelevance role = 20 := by
  cases role with
  | none => exact Or.inl rfl
  | some r =>
    simp only [scoreRoleRelevance]
    split
    · exact Or.inl rfl
    · split
      · exact Or.inr (Or.inr rfl)
      · split
        · exact Or.inr (Or.inl rfl)
        · exact Or.inl rfl

theorem industryLoop_cases (indL : List Char) (ucs : List String) :
    industryLoop indL ucs = 0 ∨ industryLoop indL ucs = 10 ∨
      industryLoop indL ucs = 20 := by
  induction ucs with
  | nil => exact Or.inl rfl
  | cons uc rest ih =>
    rw [industryLoop]
    split
    · exact Or.inr (Or.inr rfl)
    · split
      · exact Or.inr (Or.inl rfl)
      · exact ih

theorem scoreIndustryMatch_cases (industry : Option String)
    (idealUseCases : Option (List String)) :
    scoreIndustryMatch industry idealUseCases = 0 ∨
      scoreIndustryMatch industry idealUseCases = 10 ∨
      scoreIndustryMatch industry idealUseCases = 20 := by
  cases industry with
  | none => exact Or.inl rfl
  | some ind =>
    cases idealUseCases with
    | none =>
      simp only [scoreIndustryMatch]
      split
      · exact Or.inl rfl
      · exact Or.inl rfl
    | some ucs =>
      simp only [scoreIndustryMatch]
      split
      · exact Or.inl rfl
      · split
        · exact Or.inl rfl
        · exact industryLoop_cases _ _

theorem scoreDataCompleteness_cases (lead : Lead) :
    scoreDataCompleteness lead = 0 ∨ scoreDataCompleteness lead = 10 := by
  unfold scoreDataCompleteness
  split
  · exact Or.inr rfl
  · exact Or.inl rfl

theorem calculateRuleScore_total_le (lead : Lead) (offer : Offer) :
    (calculateRuleScore lead offer).totalScore ≤ 50 := by
  have h1 := scoreRoleRelevance_cases lead.role
  have h2 := scoreIndustryMatch_cases lead.industry offer.ideal_use_cases
  have h3 := scoreDataCompleteness_cases lead
  show scoreRoleRelevance lead.role + scoreIndustryMatch lead.industry offer.ideal_use_cases
    + scoreDataCompleteness lead ≤ 50
  omega

theorem mapIntentToScore_mem (intent : String) :
    mapIntentToScore intent = 10 ∨ mapIntentToScore intent = 30 ∨
      mapIntentToScore intent = 50 := by
  unfold mapIntentToScore
  split
  · exact Or.inr (Or.inr rfl)
  · split
    · exact Or.inr (Or.inl rfl)
    · split
      · exact Or.inl rfl
      · exact Or.inr (Or.inl rfl)

theorem getFallbackScore_ok_mem (lead : Lead) (offer : Offer) (r : IntentResult)
    (h : getFallbackScore lead offer = .ok r) :
    r.score = 10 ∨ r.score = 30 ∨ r.score = 50 := by
  cases hu : offer.ideal_use_cases with
  | none => simp [getFallbackScore, hu] at h
  | some ucs =>
    simp only [getFallbackScore, hu] at h
    split at h
    · injection h with h'
      subst h'
      exact Or.inr (Or.inr rfl)
    · split at h
      · injection h with h'
        subst h'
        exact Or.inr (Or.inl rfl)
      · injection h with h'
        subst h'
        exact Or.inl rfl

theorem calculateAIScore_ok_mem (cfg : OracleCfg) (lead : Lead) (offer : Offer)
    (r : IntentResult) (h : calculateAIScore cfg lead offer = .ok r) :
    r.score = 10 ∨ r.score = 30 ∨ r.score = 50 := by
  cases cfg with
  | notConfigured => exact getFallbackScore_ok_mem _ _ _ h
  | configured query =>
    simp only [calculateAIScore] at h
    cases hq : query lead offer with
    | error e =>
      rw [hq] at h
      exact getFallbackScore_ok_mem _ _ _ h
    | ok reply =>
      rw [hq] at h
      simp only [Except.ok.injEq] at h
      subst h
      exact mapIntentToScore_mem _

/-- C4: every ScoredLead produced by the combiner has
finalScore = rule total + intent score, with the rule total in [0, 50] and
the intent score in [10, 50], hence finalScore within [0, 100] (the lower
bound 0 is trivial over Nat). -/
theorem C4_finalScore_sum_and_bounds :
    ∀ (cfg : OracleCfg) (lead : Lead) (offer : Offer) (sl : ScoredLead),
      scoreLead cfg lead offer = .ok sl →
      sl.score = sl.scoreBreakdown.totalScore + sl.aiScore
      ∧ sl.ruleScore = sl.scoreBreakdown.totalScore
      ∧ sl.scoreBreakdown.totalScore ≤ 50
      ∧ 10 ≤ sl.aiScore ∧ sl.aiScore ≤ 50
      ∧ sl.score ≤ 100 := by
  intro cfg lead offer sl h
  unfold scoreLead at h
  cases hai : calculateAIScore cfg lead offer with
  | error e => rw [hai] at h; exact absurd h (by simp)
  | ok ai =>
    rw [hai] at h
    simp only [Except.ok.injEq] at h
    subst h
    have hrule := calculateRuleScore_total_le lead offer
    have hmem := calculateAIScore_ok_mem cfg lead offer ai hai
    refine ⟨rfl, rfl, hrule, ?_, ?_, ?_⟩
    · show 10 ≤ ai.score
      rcases hmem with h | h | h <;> omega
    · show ai.score ≤ 50
      rcases hmem with h | h | h <;> omega
    · show (calculateRuleScore lead offer).totalScore + ai.score ≤ 100
      rcases hmem with h | h | h <;> omega

/-- Concrete lead used by the witnesses. -/
def leadW : Lead :=
  { name := some "Ava", role := some "CEO", company := some "Acme",
    industry := some "SaaS", location := some "NY", linkedin_bio := none }

/-- Concrete offer used by the witnesses. -/
def offerW : Offer :=
  { name := some "X", value_props := some ["v"], ideal_use_cases := some ["SaaS tools"] }

/-- The scored lead that the pipeline produces on leadW and offerW with no
oracle configured. -/
def scoredW : ScoredLead :=
  { lead := leadW, intent := "Medium", score := 80
    reasoning := "Moderate indicators present Rule-based analysis: role relevance (20 pts), industry match (20 pts), data completeness (10 pts)"
    ruleScore := 50, aiScore := 30
    scoreBreakdown := { roleScore := 20, industryScore := 20,
                        completenessScore := 10, totalScore := 50 } }

/-- Witness for C4 on the concrete pipeline run. -/
theorem C4_witness :
    scoredW.score = scoredW.scoreBreakdown.totalScore + scoredW.aiScore
    ∧ scoredW.ruleScore = scoredW.scoreBreakdown.totalScore
    ∧ scoredW.scoreBreakdown.totalScore ≤ 50
    ∧ 10 ≤ scoredW.aiScore ∧ scoredW.aiScore ≤ 50
    ∧ scoredW.score ≤ 100 :=
  C4_finalScore_sum_and_bounds OracleCfg.notConfigured leadW offerW scoredW (by rfl)

/-- C10: every intent result that reaches the combiner carries a score in
the set 10, 30, 50 — the oracle-parsed path through mapIntentToScore, its
unrecognized-intent default and the fallback heuristic alike — so every
ScoredLead has finalScore at least 10 and the lower end 0 of the stated
0-100 range is never attained. -/
theorem C10_aiScore_mem_and_floor :
    ∀ (cfg : OracleCfg) (lead : Lead) (offer : Offer),
      (∀ r : IntentResult, calculateAIScore cfg lead offer = .ok r →
        r.score = 10 ∨ r.score = 30 ∨ r.score = 50)
      ∧ (∀ sl : ScoredLead, scoreLead cfg lead offer = .ok sl → 10 ≤ sl.score) := by
  intro cfg lead offer
  refine ⟨fun r h => calculateAIScore_ok_mem cfg lead offer r h, ?_⟩
  intro sl h
  unfold scoreLead at h
  cases hai : calculateAIScore cfg lead offer with
  | error e => rw [hai] at h; exact absurd h (by simp)
  | ok ai =>
    rw [hai] at h
    simp only [Except.ok.injEq] at h
    subst h
    have hmem := calculateAIScore_ok_mem cfg lead offer ai hai
    show 10 ≤ (calculateRuleScore lead offer).totalScore + ai.score
    rcases hmem with h | h | h <;> omega

/-- Witness for C10 on the concrete pipeline run. -/
theorem C10_witness :
    10 ≤ scoredW.score :=
  (C10_aiScore_mem_and_floor OracleCfg.notConfigured leadW offerW).2 scoredW (by rfl)

theorem scoreAll_ok_spec (cfg : OracleCfg) (offer : Offer) :
    ∀ (leads : List Lead) (rs : List ScoredLead),
      scoreAll cfg offer leads = .ok rs →
      rs.length = leads.length
      ∧ ∀ (i : Nat) (hi : i < leads.length) (hi' : i < rs.length),
          scoreLead cfg (leads.get ⟨i, hi⟩) offer = .ok (rs.get ⟨i, hi'⟩) := by
  intro leads
  induction leads with
  | nil =>
    intro rs h
    simp only [scoreAll, Except.ok.injEq] at h
    subst h
    exact ⟨rfl, fun i hi => absurd hi (by simp)⟩
  | cons l rest ih =>
    intro rs h
    rw [scoreAll] at h
    cases hl : scoreLead cfg l offer with
    | error e => rw [hl] at h; simp at h
    | ok s =>
      rw [hl] at h
      cases hr : scoreAll cfg offer rest with
      | error e => rw [hr] at h; simp at h
      | ok ss =>
        rw [hr] at h
        simp only [Except.ok.injEq] at h
        subst h
        obtain ⟨hlen, hidx⟩ := ih ss hr
        refine ⟨by simp [hlen], ?_⟩
        intro i hi hi'
        cases i with
        | zero => simpa using hl
        | succ j =>
          have hj : j < rest.length := by
            simpa using hi
          have hj' : j < ss.length := by
            simpa using hi'
          simpa using hidx j hj hj'

/-- C3: a batch call either returns a full result list — of the same
length as the input, with the i-th output the score of the i-th input lead
— or a single batch-level failure; no partial or reordered list is ever
produced. Oracle replies are modelled as a function of the lead, so the
re-association of responses to leads is by construction independent of
completion order. -/
theorem C3_batch_all_or_nothing :
    ∀ (cfg : OracleCfg) (leads : List Lead) (offer : Offer),
      ((∃ rs, scoreLeads cfg leads offer = .ok rs) ∨
        (∃ e, scoreLeads cfg leads offer = .error e))
      ∧ (∀ rs, scoreLeads cfg leads offer = .ok rs →
          rs.length = leads.length
          ∧ ∀ (i : Nat) (hi : i < leads.length) (hi' : i < rs.length),
              scoreLead cfg (leads.get ⟨i, hi⟩) offer = .ok (rs.get ⟨i, hi'⟩)) := by
  intro cfg leads offer
  constructor
  · cases h : scoreLeads cfg leads offer with
    | error e => exact Or.inr ⟨e, rfl⟩
    | ok rs => exact Or.inl ⟨rs, rfl⟩
  · intro rs h
    unfold scoreLeads at h
    cases ha : scoreAll cfg offer leads with
    | error e => rw [ha] at h; simp at h
    | ok rs0 =>
      rw [ha] at h
      simp only [Except.ok.injEq] at h
      subst h
      exact scoreAll_ok_spec cfg offer leads rs0 ha

/-- Witness for C3 on a concrete two-lead batch. -/
theorem C3_witness :
    ([scoredW, scoredW].length = [leadW, leadW].length) :=
  ((C3_batch_all_or_nothing OracleCfg.notConfigured [leadW, leadW] offerW).2
    [scoredW, scoredW] (by rfl)).1

/-- C9: the composed reasoning of every ScoredLead is the intent result's
reasoning, then the fixed connective, then a clause listing exactly the
nonzero rule sub-scores in the order role, industry, completeness, each as
label (N pts) joined by commas, with the no-rule-matches phrase when all
three are zero; the source clause builder agrees with that description on
every breakdown. -/
theorem C9_reasoning_composition :
    (∀ rb : RuleBreakdown, getRuleBreakdown rb = breakdownClauseClaim rb)
    ∧ (∀ (cfg : OracleCfg) (lead : Lead) (offer : Offer) (sl : ScoredLead),
        scoreLead cfg lead offer = .ok sl →
        ∃ ai, calculateAIScore cfg lead offer = .ok ai ∧
          sl.reasoning = ai.reasoning ++ " Rule-based analysis: "
            ++ breakdownClauseClaim (calculateRuleScore lead offer)) := by
  have hclause : ∀ rb : RuleBreakdown, getRuleBreakdown rb = breakdownClauseClaim rb := by
    intro rb
    by_cases h1 : rb.roleScore > 0 <;> by_cases h2 : rb.industryScore > 0 <;>
      by_cases h3 : rb.completenessScore > 0 <;>
      simp [getRuleBreakdown, breakdownClauseClaim, h1, h2, h3]
  refine ⟨hclause, ?_⟩
  intro cfg lead offer sl h
  unfold scoreLead at h
  cases hai : calculateAIScore cfg lead offer with
  | error e => rw [hai] at h; exact absurd h (by simp)
  | ok ai =>
    rw [hai] at h
    simp only [Except.ok.injEq] at h
    subst h
    exact ⟨ai, rfl, by rw [← hclause]⟩

/-- Witness for C9 on the concrete pipeline run. -/
theorem C9_witness :
    ∃ ai, calculateAIScore OracleCfg.notConfigured leadW offerW = .ok ai ∧
      scoredW.reasoning = ai.reasoning ++ " Rule-based analysis: "
        ++ breakdownClauseClaim (calculateRuleScore leadW offerW) :=
  C9_reasoning_composition.2 OracleCfg.notConfigured leadW offerW scoredW (by rfl)

/-- C5 counterexample: the reply lacks the INTENT pattern yet carries a
REASONING line, so the parser returns intent Medium with the extracted
text great lead — not the generic placeholder the claim asserts for every
INTENT-less reply. -/
theorem C5_counterexample :
    findIntentTok ("REASONING: great lead").toList = none
    ∧ parseAIResponse "REASONING: great lead" =
        { intent := "Medium", reasoning := "great lead" }
    ∧ ("great lead" : String) ≠ "AI analysis completed" :=
  ⟨by rfl, by rfl, by decide⟩

/-- C5 (amended): when the INTENT pattern is absent the parser returns
intent Medium without raising, that intent maps to score 30, and the
reasoning is the generic placeholder exactly when the REASONING pattern is
also absent; independently, any intent string outside High, Medium, Low
maps to score 30. -/
theorem C5_parse_default_medium :
    (∀ s : String, findIntentTok s.toList = none →
      (parseAIResponse s).intent = "Medium"
      ∧ mapIntentToScore (parseAIResponse s).intent = 30
      ∧ (findReasoningCap s.toList = none →
          (parseAIResponse s).reasoning = "AI analysis completed"))
    ∧ (∀ t : String, t ≠ "High" → t ≠ "Medium" → t ≠ "Low" →
        mapIntentToScore t = 30) := by
  constructor
  · intro s h
    refine ⟨?_, ?_, ?_⟩
    · simp [parseAIResponse, show findIntentTok s.data = none from h]
    · simp [parseAIResponse, show findIntentTok s.data = none from h, mapIntentToScore]
    · intro h2
      simp [parseAIResponse, show findReasoningCap s.data = none from h2]
  · intro t h1 h2 h3
    simp [mapIntentToScore, h1, h2, h3]

/-- Witness for C5 on a fully unparseable reply. -/
theorem C5_witness :
    (parseAIResponse "hello").intent = "Medium"
    ∧ (parseAIResponse "hello").reasoning = "AI analysis completed" :=
  ⟨(C5_parse_default_medium.1 "hello" (by rfl)).1,
   (C5_parse_default_medium.1 "hello" (by rfl)).2.2 (by rfl)⟩

/-- C1 counterexample: the role contains director and the lowercased
industry SaaS is a substring of the ideal use case B2B SaaS mid-market —
the exact situation the claim says yields High/50 — yet getFallbackScore
returns Medium/30, because the source tests whether the use case is a
substring of the industry, not the reverse. -/
theorem C1_counterexample :
    strIncludes (lowerL "Director of Ops") "director".toList = true
    ∧ strIncludes (lowerL "B2B SaaS mid-market") (lowerL "SaaS") = true
    ∧ getFallbackScore
        { name := some "Jane", role := some "Director of Ops", company := some "Acme",
          industry := some "SaaS", location := some "NY", linkedin_bio := none }
        { name := none, value_props := none,
          ideal_use_cases := some ["B2B SaaS mid-market"] }
      = .ok { intent := "Medium", score := 30,
              reasoning := "Moderate indicators present" } :=
  ⟨by decide, by decide, by rfl⟩

/-- C1 (amended): with no oracle configured, or when the oracle call
raises, the result is the fallback heuristic, which classifies by
fallbackStrongRole (role contains a strong keyword) and
fallbackRelevantIndustry (the industry contains some ideal use case as a
case-insensitive substring — the direction the source actually tests):
both yield High/50, exactly one Medium/30, neither Low/10; a role
containing director makes fallbackStrongRole true, so director plus an
industry containing a use case yields High/50. -/
theorem C1_fallback_characterization :
    ∀ (lead : Lead) (offer : Offer) (ucs : List String),
      offer.ideal_use_cases = some ucs →
      calculateAIScore OracleCfg.notConfigured lead offer = getFallbackScore lead offer
      ∧ (∀ (query : Lead → Offer → Except String String) (e : String),
          query lead offer = .error e →
          calculateAIScore (OracleCfg.configured query) lead offer
            = getFallbackScore lead offer)
      ∧ getFallbackScore lead offer = .ok
          (if fallbackStrongRole lead && fallbackRelevantIndustry lead ucs then
            { intent := "High", score := 50,
              reasoning := "Strong indicators: relevant role and industry match" }
          else if fallbackStrongRole lead || fallbackRelevantIndustry lead ucs then
            { intent := "Medium", score := 30,
              reasoning := "Moderate indicators present" }
          else
            { intent := "Low", score := 10,
              reasoning := "Limited indicators of strong fit" })
      ∧ (∀ r : String, lead.role = some r →
          strIncludes (lowerL r) "director".toList = true →
          fallbackStrongRole lead = true)
      ∧ (fallbackStrongRole lead = true → fallbackRelevantIndustry lead ucs = true →
          getFallbackScore lead offer = .ok
            { intent := "High", score := 50,
              reasoning := "Strong indicators: relevant role and industry match" }) := by
  intro lead offer ucs hu
  have hmain : getFallbackScore lead offer = .ok
      (if fallbackStrongRole lead && fallbackRelevantIndustry lead ucs then
        { intent := "High", score := 50,
          reasoning := "Strong indicators: relevant role and industry match" }
      else if fallbackStrongRole lead || fallbackRelevantIndustry lead ucs then
        { intent := "Medium", score := 30,
          reasoning := "Moderate indicators present" }
      else
        { intent := "Low", score := 10,
          reasoning := "Limited indicators of strong fit" }) := by
    simp only [getFallbackScore, hu]
    by_cases hb : (fallbackStrongRole lead && fallbackRelevantIndustry lead ucs) = true
    · simp [hb]
    · have hb' := Bool.eq_false_iff.mpr hb
      by_cases ho : (fallbackStrongRole lead || fallbackRelevantIndustry lead ucs) = true
      · simp [hb', ho]
      · have ho' := Bool.eq_false_iff.mpr ho
        simp [hb', ho']
  refine ⟨rfl, ?_, hmain, ?_, ?_⟩
  · intro query e hq
    simp only [calculateAIScore, hq]
  · intro r hr hinc
    unfold fallbackStrongRole
    rw [List.any_eq_true]
    refine ⟨"director", by simp, ?_⟩
    rw [hr]
    exact hinc
  · intro hs hi
    rw [hmain, hs, hi]
    rfl

/-- Witness for C1: director role and an industry that contains the ideal
use case as a substring, scored High/50 by the fallback. -/
theorem C1_witness :
    getFallbackScore
      { name := some "Ben", role := some "Director", company := some "Acme",
        industry := some "B2B SaaS platform", location := some "NY",
        linkedin_bio := none }
      { name := none, value_props := none, ideal_use_cases := some ["SaaS"] }
    = .ok { intent := "High", score := 50,
            reasoning := "Strong indicators: relevant role and industry match" } :=
  (C1_fallback_characterization
      { name := some "Ben", role := some "Director", company := some "Acme",
        industry := some "B2B SaaS platform", location := some "NY",
        linkedin_bio := none }
      { name := none, value_props := none, ideal_use_cases := some ["SaaS"] }
      ["SaaS"] rfl).2.2.2.2
    (by decide) (by decide)



